import Mathlib

/-!
Shallow embedding of the vaani-sentinel-x orchestration, scheduling and
publishing core (agents/scheduler.py, agents/publisher_sim.py,
cli/command_center.py), together with theorems settling the claims about
that core.

Modelling conventions:
- A parsed JSON object is an association list from field name to string
  value; Python dict.get with a default is modelled by dgetD, plain
  dict.get by dget.
- Python truthiness of an optional string (None and the empty string are
  falsy) is modelled by truthy.
- Wall-clock times are natural numbers.  The source stores times as text
  in the fixed format YYYY-MM-DD HH:MM:SS and compares them as text; on
  that fixed-width format lexicographic order coincides with
  chronological order, so Nat with its order is a faithful model.
- uuid4 post ids are modelled by a fresh-counter argument threaded
  through the functions; freshness of the counter models uniqueness of
  freshly drawn uuids.
- Reading a content file either yields a parsed object or fails (missing
  file, JSON decode error, encoding error); both are modelled by Option.
-/

namespace Vaani

/-- A parsed JSON object: association list from field names to values. -/
abbrev JsonDict := List (String × String)

/-- Python dict.get(k): the first binding of k, if any. -/
def dget (d : JsonDict) (k : String) : Option String :=
  (d.find? (fun p => p.1 == k)).map (fun p => p.2)

/-- Python dict.get(k, d) with the empty string as default. -/
def dgetD (d : JsonDict) (k : String) : String := (dget d k).getD ""

/-- Python truthiness of an optional string: None and the empty string are falsy. -/
def truthy : Option String → Bool
  | none => false
  | some s => !(s == "")

/-- One row of the scheduled_posts table (agents/scheduler.py, CREATE TABLE). -/
structure ScheduledPost where
  content_id : String
  platform : String
  content_type : String
  content : String
  scheduled_time : Nat
  status : String
  post_id : Nat
  lang : String
deriving DecidableEq, Repr

/-- The key of the text field read for a content type:
    content_type if content_type != voice else voice_script
    (agents/scheduler.py line 48, agents/publisher_sim.py line 99). -/
def textFieldKey (content_type : String) : String :=
  if content_type == "voice" then "voice_script" else content_type

/-- The fixed backdating offset: timedelta(hours=1) in seconds
    (agents/scheduler.py line 61). -/
def backdateOffset : Nat := 3600

/-- The row inserted for an accepted artifact (agents/scheduler.py lines 60 to 66). -/
def mkScheduledPost (d : JsonDict) (platform content_type lang : String)
    (now pid : Nat) : ScheduledPost :=
  { content_id := dgetD d "id"
    platform := platform
    content_type := content_type
    content := dgetD d (textFieldKey content_type)
    scheduled_time := now - backdateOffset
    status := "pending"
    post_id := pid
    lang := lang }

/-- schedule_content (agents/scheduler.py lines 27 to 87): iterate over the
content files, skip a file whose JSON could not be read (modelled by none),
skip when the id or the declared platform is falsy, skip when the declared
platform differs from the platform argument, and otherwise insert a fresh
row with status pending and a backdated scheduled time.  The function
returns the list of inserted rows (the scheduled list of the source, which
coincides field for field with the inserted rows). -/
def schedule_content (files : List (Option JsonDict))
    (platform content_type lang : String) (now pid : Nat) : List ScheduledPost :=
  match files with
  | [] => []
  | f :: rest =>
    match f with
    | none => schedule_content rest platform content_type lang now pid
    | some d =>
      if truthy (dget d "id") && truthy (dget d "platform") then
        if dgetD d "platform" == platform then
          mkScheduledPost d platform content_type lang now pid ::
            schedule_content rest platform content_type lang now (pid + 1)
        else
          schedule_content rest platform content_type lang now pid
      else
        schedule_content rest platform content_type lang now pid

/-- The acceptance condition of schedule_content, read off the source: the
file parses, id and declared platform are truthy, and the declared platform
equals the platform argument.  The text field is not consulted. -/
def eligible (f : Option JsonDict) (platform : String) : Bool :=
  match f with
  | none => false
  | some d =>
    truthy (dget d "id") && truthy (dget d "platform") &&
      (dgetD d "platform" == platform)

theorem schedule_content_post_ids (files : List (Option JsonDict))
    (platform content_type lang : String) (now pid : Nat) :
    (schedule_content files platform content_type lang now pid).map
        (fun r => r.post_id) =
      List.range' pid (files.countP (fun f => eligible f platform)) := by
  induction files generalizing pid with
  | nil => simp [schedule_content]
  | cons f rest ih =>
    cases f with
    | none =>
      simp [schedule_content, List.countP_cons, eligible, ih pid]
    | some d =>
      by_cases h1 : (truthy (dget d "id") && truthy (dget d "platform")) = true
      · by_cases h2 : (dgetD d "platform" == platform) = true
        · simp [schedule_content, h1, h2, List.countP_cons, eligible,
            mkScheduledPost, ih (pid + 1), List.range'_succ]
        · simp [schedule_content, h1, h2, List.countP_cons, eligible, ih pid]
      · have he : eligible (some d) platform = false := by
          simp [eligible]
          intro ha hb
          simp [ha, hb] at h1
        simp [schedule_content, h1, List.countP_cons, he, ih pid]

theorem schedule_content_length (files : List (Option JsonDict))
    (platform content_type lang : String) (now pid : Nat) :
    (schedule_content files platform content_type lang now pid).length =
      files.countP (fun f => eligible f platform) := by
  have h := schedule_content_post_ids files platform content_type lang now pid
  have h2 := congrArg List.length h
  simpa using h2

theorem schedule_content_row_shape (files : List (Option JsonDict))
    (platform content_type lang : String) (now pid : Nat) :
    ∀ r ∈ schedule_content files platform content_type lang now pid,
      r.status = "pending" ∧ r.scheduled_time = now - backdateOffset ∧
      r.platform = platform ∧ r.content_type = content_type ∧ r.lang = lang := by
  induction files generalizing pid with
  | nil => intro r hr; simp [schedule_content] at hr
  | cons f rest ih =>
    intro r hr
    match f with
    | none =>
      exact ih pid r (by simpa [schedule_content] using hr)
    | some d =>
      by_cases h1 : (truthy (dget d "id") && truthy (dget d "platform")) = true
      · by_cases h2 : (dgetD d "platform" == platform) = true
        · simp [schedule_content, h1, h2] at hr
          rcases hr with hr | hr
          · subst hr; simp [mkScheduledPost]
          · exact ih (pid + 1) r hr
        · exact ih pid r (by simpa [schedule_content, h1, h2] using hr)
      · exact ih pid r (by simpa [schedule_content, h1] using hr)

/-- Claim C1, as frozen, fails on the code: schedule_content has no check on
the text field, so an artifact whose text field for the content type is
empty (here: a tweet artifact with no tweet field at all) with a truthy id
and a matching declared platform still yields an inserted record, where the
claim requires it to be skipped.  This closed theorem exhibits the
counterexample: one file, empty text, one row inserted with empty content. -/
theorem C1_counterexample :
    dgetD [("id", "1"), ("platform", "twitter")] "tweet" = "" ∧
    (schedule_content [some [("id", "1"), ("platform", "twitter")]]
        "twitter" "tweet" "en" 3600 0).length = 1 ∧
    (schedule_content [some [("id", "1"), ("platform", "twitter")]]
        "twitter" "tweet" "en" 3600 0).map (fun r => r.content) = [""] := by
  decide

/-- Claim C1 (amended): for every invocation of schedule_content, an artifact
yields exactly one inserted row (status pending, fresh unique post id,
scheduled time backdated by the fixed offset, carrying the platform, content
type and language arguments) if and only if the artifact parses, its id and
declared platform are truthy, and the declared platform equals the platform
argument; every other artifact is skipped and processing of the remaining
artifacts continues.  The text field for the content type is not consulted:
it is stored as-is, empty or not.  Formally: the inserted rows number
exactly the eligible artifacts (so each eligible artifact yields exactly one
row and every other artifact yields none while the batch continues), every
inserted row has status pending, backdated time and the argument fields, and
the post ids are the consecutive fresh values from the counter, hence
pairwise distinct. -/
theorem C1_schedule_content_amended (files : List (Option JsonDict))
    (platform content_type lang : String) (now pid : Nat) :
    (schedule_content files platform content_type lang now pid).length =
        files.countP (fun f => eligible f platform) ∧
    (∀ r ∈ schedule_content files platform content_type lang now pid,
        r.status = "pending" ∧ r.scheduled_time = now - backdateOffset ∧
        r.platform = platform ∧ r.content_type = content_type ∧ r.lang = lang) ∧
    (schedule_content files platform content_type lang now pid).map
        (fun r => r.post_id) =
      List.range' pid (files.countP (fun f => eligible f platform)) ∧
    ((schedule_content files platform content_type lang now pid).map
        (fun r => r.post_id)).Nodup := by
  refine ⟨schedule_content_length files platform content_type lang now pid,
    schedule_content_row_shape files platform content_type lang now pid,
    schedule_content_post_ids files platform content_type lang now pid, ?_⟩
  rw [schedule_content_post_ids files platform content_type lang now pid]
  exact List.nodup_range' pid (files.countP (fun f => eligible f platform))

/-! ## Publisher (agents/publisher_sim.py)

The publisher reads the filesystem through two lookups: get_content_file
plus the subsequent open and json.load (modelled as one Option-valued
lookup: none covers both no matching file and an unreadable file, and both
paths of the source mark the post failed and write nothing), and
get_audio_file (none models the empty-string return for no match). -/

/-- The filesystem as the publisher sees it. -/
structure PubEnv where
  contentFile : String → String → String → String → Option JsonDict
  audioFile : String → String → String → Option String

/-- The platform-shaped content payload of a post

    (format_content: plain text for instagram, twitter and sanatan;
    title plus summary for linkedin). -/
inductive Payload where
  | text : String → Payload
  | titleSummary : String → String → Payload
deriving DecidableEq, Repr

/-- The post_data dictionary built by format_content and written as a
delivery record by publish_to_platform.  publish_time and
preferred_languages are omitted: no claim mentions them. -/
structure PostData where
  post_id : Nat
  content_id : String
  platform : String
  language : String
  sentiment : String
  voice_tag : String
  status : String
  content : Option Payload
  audio : String
  format : String
deriving DecidableEq, Repr

/-- format_content (publisher_sim.py lines 95 to 138) on the publish path,
where no translation preview is passed (publish_content never passes one).
A platform outside the four known ones sets no content key: modelled by
content none. -/
def format_content (content : JsonDict) (content_type platform audio_file lang : String)
    (pid : Nat) : PostData :=
  let content_id := (dget content "content_id").getD ((dget content "id").getD "unknown")
  let content_text := dgetD content (textFieldKey content_type)
  let base : PostData :=
    { post_id := pid
      content_id := content_id
      platform := platform
      language := lang
      sentiment := (dget content "sentiment").getD "neutral"
      voice_tag := ""
      status := "pending"
      content := none
      audio := ""
      format := "" }
  if platform == "instagram" then
    { base with
        content := some (.text (content_text ++ "\n#Inspiration #Multilingual"))
        audio := if content_type == "voice" then audio_file else ""
        format := "multilingual text + audio thumbnail" }
  else if platform == "twitter" then
    { base with
        content := some (.text (if content_type == "tweet" then content_text.take 280 else content_text))
        audio := if content_type == "voice" then audio_file else ""
        format := "multilingual short text + TTS snippet" }
  else if platform == "linkedin" then
    { base with
        content := some (.titleSummary ("Multilingual Insight " ++ content_id) content_text)
        audio := if content_type == "voice" then audio_file else ""
        format := "multilingual title + summary + TTS" }
  else if platform == "sanatan" then
    { base with
        content := some (.text content_text)
        audio := if content_type == "voice" then audio_file else ""
        format := "multilingual voice script + audio" }
  else
    base

/-- The platforms whose simulated transport response is a success
    (publisher_sim.py line 152). -/
def knownPlatforms : List String := ["twitter", "instagram", "linkedin", "sanatan"]

/-- publish_to_platform (publisher_sim.py lines 140 to 174): format the
post; reading post_data content for an unknown platform raises KeyError,
caught by the handler, which returns False having written nothing; in
publish mode a known platform gets a simulated 200 (record status success),
anything else a 500 and an early False return BEFORE the record is written;
in preview mode the record status is preview.  The written delivery record,
when one is written, is the second component. -/
def publish_to_platform (platform : String) (content : JsonDict)
    (content_type audio_file : String) (preview_mode : Bool) (lang : String)
    (pid : Nat) : Bool × Option PostData :=
  let post := format_content content content_type platform audio_file lang pid
  match post.content with
  | none => (false, none)
  | some _ =>
    if !preview_mode then
      if knownPlatforms.contains platform then
        (true, some { post with status := "success" })
      else
        (false, none)
    else
      (true, some { post with status := "preview" })

/-- update_status (publisher_sim.py lines 176 to 189): set the status of
every row matching content_id, platform and lang; the current status and
the post id are not part of the condition. -/
def update_status (db : List ScheduledPost) (content_id platform lang status : String) :
    List ScheduledPost :=
  db.map (fun r =>
    if r.content_id == content_id && r.platform == platform && r.lang == lang then
      { r with status := status }
    else r)

/-- A row of the SELECT in fetch_due_posts:
    (content_id, platform, content_type, lang). -/
abbrev DueTuple := String × String × String × String

/-- fetch_due_posts (publisher_sim.py lines 191 to 208): rows with status
pending and scheduled_time at most now, filtered by language unless the
language is the all wildcard. -/
def fetch_due_posts (db : List ScheduledPost) (selected_language : String)
    (now : Nat) : List DueTuple :=
  (db.filter (fun r =>
      r.status == "pending" && decide (r.scheduled_time ≤ now) &&
        (selected_language == "all" || r.lang == selected_language))).map
    (fun r => (r.content_id, r.platform, r.content_type, r.lang))

/-- publish_content (publisher_sim.py lines 210 to 234): no content file
(or an unreadable one) marks the post failed with no delivery record; a
voice post for sanatan with no audio file likewise; otherwise the outcome
of publish_to_platform decides between published (preview in preview mode)
and failed.  Returns (success, updated table, written delivery record,
updated uuid counter). -/
def publish_content (env : PubEnv) (db : List ScheduledPost)
    (content_id platform content_type lang : String) (preview_mode : Bool)
    (pid : Nat) : Bool × List ScheduledPost × Option PostData × Nat :=
  match env.contentFile content_id content_type lang platform with
  | none => (false, update_status db content_id platform lang "failed", none, pid)
  | some content =>
    let audio_file := if content_type == "voice" then (env.audioFile content_id lang platform).getD "" else ""
    if content_type == "voice" && platform == "sanatan" && audio_file == "" then
      (false, update_status db content_id platform lang "failed", none, pid)
    else
      let out := publish_to_platform platform content content_type audio_file preview_mode lang pid
      if out.1 then
        (true, update_status db content_id platform lang (if preview_mode then "preview" else "published"), out.2, pid + 1)
      else
        (false, update_status db content_id platform lang "failed", out.2, pid + 1)

/-- The per-post summary string appended to processed_posts
    (publisher_sim.py line 311). -/
def processedMsg (content_id platform content_type status lang : String) : String :=
  "ID " ++ content_id ++ " (" ++ platform ++ ", " ++ content_type ++ ", " ++
    status ++ ", lang: " ++ lang ++ ")"

/-- The inner loop of run_publisher_sim (publisher_sim.py lines 308 to 311):
publish every due post in order, never aborting the batch, collecting the
written delivery records and the per-post summaries.  Returns (updated
table, written records, summaries, updated uuid counter). -/
def process_due_posts (env : PubEnv) (preview_mode : Bool) :
    List ScheduledPost → List DueTuple → Nat →
    List ScheduledPost × List PostData × List String × Nat
  | db, [], pid => (db, [], [], pid)
  | db, (content_id, platform, content_type, lang) :: rest, pid =>
    let step := publish_content env db content_id platform content_type lang preview_mode pid
    let status :=
      if step.1 && !preview_mode then "published"
      else if step.1 then "preview"
      else "failed"
    let next := process_due_posts env preview_mode step.2.1 rest step.2.2.2
    (next.1, step.2.2.1.toList ++ next.2.1,
      processedMsg content_id platform content_type status lang :: next.2.2.1,
      next.2.2.2)

/-- The polling loop of run_publisher_sim (publisher_sim.py lines 300 to
314): one fetch round per element of times (the wall-clock instant of each
attempt; max_attempts rounds means a times list of that length, 3 by
default); an empty round sleeps and retries, the first non-empty round is
fully processed and the loop breaks.  Returns (updated table, written
records, summaries, fetch rounds performed). -/
def publisher_attempts (env : PubEnv) (preview_mode : Bool)
    (selected_language : String) :
    List ScheduledPost → Nat → List Nat →
    List ScheduledPost × List PostData × List String × Nat
  | db, _, [] => (db, [], [], 0)
  | db, pid, now :: rest =>
    let due := fetch_due_posts db selected_language now
    if due.isEmpty then
      let next := publisher_attempts env preview_mode selected_language db pid rest
      (next.1, next.2.1, next.2.2.1, next.2.2.2 + 1)
    else
      let batch := process_due_posts env preview_mode db due pid
      (batch.1, batch.2.1, batch.2.2.1, 1)

/-- The observable outcome of one publisher run. -/
structure PublisherRun where
  db : List ScheduledPost
  scheduled_posts_dir : List PostData
  processed_posts : List String
  fetch_rounds : Nat
  no_posts_warning : Bool
deriving DecidableEq, Repr

/-- The first step of run_publisher_sim (publisher_sim.py lines 292 to
295): shutil.rmtree deletes the whole scheduled_posts directory when it
exists and os.makedirs recreates it empty, whatever it held before. -/
def clear_scheduled_posts_dir (_prev_dir : List PostData) : List PostData := []

/-- run_publisher_sim (publisher_sim.py lines 287 to 317): clear the
scheduled_posts directory before any post is processed, so the directory
afterwards holds exactly the records written by this run; then run the
polling loop; the warning on line 317 fires exactly when no posts were
processed. -/
def run_publisher_sim (env : PubEnv) (selected_language : String)
    (preview_mode : Bool) (times : List Nat) (db : List ScheduledPost)
    (pid : Nat) (prev_dir : List PostData) : PublisherRun :=
  let dir0 : List PostData := clear_scheduled_posts_dir prev_dir
  let out := publisher_attempts env preview_mode selected_language db pid times
  { db := out.1
    scheduled_posts_dir := dir0 ++ out.2.1
    processed_posts := out.2.2.1
    fetch_rounds := out.2.2.2
    no_posts_warning := out.2.2.1.isEmpty }

/-! ## Publisher lemmas -/

/-- The key on which update_status matches rows. -/
def postKey (r : ScheduledPost) : String × String × String :=
  (r.content_id, r.platform, r.lang)

/-- The same key read off a due tuple. -/
def tupleKey (t : DueTuple) : String × String × String :=
  (t.1, t.2.1, t.2.2.2)

theorem keyMatch_iff (r : ScheduledPost) (c p l : String) :
    (r.content_id == c && r.platform == p && r.lang == l) = true ↔
      postKey r = (c, p, l) := by
  simp [postKey, Prod.ext_iff, Bool.and_eq_true, and_assoc]

/-- Every tuple fetch_due_posts returns is the projection of a table row
that is pending, due, and of the selected language unless the language is
the all wildcard. -/
theorem mem_fetch_due_posts (db : List ScheduledPost) (selected_language : String)
    (now : Nat) (t : DueTuple) (ht : t ∈ fetch_due_posts db selected_language now) :
    ∃ r ∈ db, r.status = "pending" ∧ r.scheduled_time ≤ now ∧
      (selected_language ≠ "all" → r.lang = selected_language) ∧
      t = (r.content_id, r.platform, r.content_type, r.lang) := by
  unfold fetch_due_posts at ht
  rcases List.mem_map.mp ht with ⟨r, hr, rfl⟩
  rcases List.mem_filter.mp hr with ⟨hrdb, hcond⟩
  simp only [Bool.and_eq_true, beq_iff_eq, decide_eq_true_eq, Bool.or_eq_true] at hcond
  refine ⟨r, hrdb, hcond.1.1, hcond.1.2, ?_, rfl⟩
  intro hall
  rcases hcond.2 with h | h
  · exact absurd h hall
  · exact h

/-- Claim C8: every record fetch_due_posts returns has status pending and a
scheduled time at most the time of the call (never strictly in the future),
and when the selected language is not the all wildcard it has that
language.  The returned tuple is the projection of such a table row. -/
theorem C8_fetch_due_posts (db : List ScheduledPost) (selected_language : String)
    (now : Nat) (t : DueTuple) (ht : t ∈ fetch_due_posts db selected_language now) :
    ∃ r ∈ db, r.status = "pending" ∧ r.scheduled_time ≤ now ∧
      (selected_language ≠ "all" → r.lang = selected_language) ∧
      t = (r.content_id, r.platform, r.content_type, r.lang) :=
  mem_fetch_due_posts db selected_language now t ht

/-- A fixed sample row used by witnesses. -/
def samplePost : ScheduledPost :=
  { content_id := "1"
    platform := "twitter"
    content_type := "tweet"
    content := "hello"
    scheduled_time := 0
    status := "pending"
    post_id := 0
    lang := "en" }

theorem C8_fetch_due_posts_witness :
    ∃ r ∈ [samplePost], r.status = "pending" ∧ r.scheduled_time ≤ 5 ∧
      ("en" ≠ "all" → r.lang = "en") ∧
      (("1", "twitter", "tweet", "en") : DueTuple) =
        (r.content_id, r.platform, r.content_type, r.lang) :=
  C8_fetch_due_posts [samplePost] "en" 5 ("1", "twitter", "tweet", "en") (by decide)

theorem publisher_attempts_rounds_le (env : PubEnv) (pm : Bool) (lg : String) :
    ∀ (times : List Nat) (db : List ScheduledPost) (pid : Nat),
      (publisher_attempts env pm lg db pid times).2.2.2 ≤ times.length := by
  intro times
  induction times with
  | nil => intro db pid; simp [publisher_attempts]
  | cons now rest ih =>
    intro db pid
    by_cases h : (fetch_due_posts db lg now).isEmpty
    · simpa [publisher_attempts, h] using Nat.succ_le_succ (ih db pid)
    · simp [publisher_attempts, h]

theorem publisher_attempts_all_empty (env : PubEnv) (pm : Bool) (lg : String) :
    ∀ (times : List Nat) (db : List ScheduledPost) (pid : Nat),
      (∀ now ∈ times, fetch_due_posts db lg now = []) →
      publisher_attempts env pm lg db pid times = (db, [], [], times.length) := by
  intro times
  induction times with
  | nil => intro db pid _; simp [publisher_attempts]
  | cons now rest ih =>
    intro db pid hall
    have h0 : fetch_due_posts db lg now = [] := hall now (by simp)
    have hrest : ∀ t ∈ rest, fetch_due_posts db lg t = [] :=
      fun t ht => hall t (by simp [ht])
    simp [publisher_attempts, h0, ih db pid hrest]

theorem publisher_attempts_first_nonempty (env : PubEnv) (pm : Bool) (lg : String) :
    ∀ (pre : List Nat) (now : Nat) (post : List Nat) (db : List ScheduledPost)
      (pid : Nat),
      (∀ t ∈ pre, fetch_due_posts db lg t = []) →
      fetch_due_posts db lg now ≠ [] →
      publisher_attempts env pm lg db pid (pre ++ now :: post) =
        ((process_due_posts env pm db (fetch_due_posts db lg now) pid).1,
         (process_due_posts env pm db (fetch_due_posts db lg now) pid).2.1,
         (process_due_posts env pm db (fetch_due_posts db lg now) pid).2.2.1,
         pre.length + 1) := by
  intro pre
  induction pre with
  | nil =>
    intro now post db pid _ hne
    have h : (fetch_due_posts db lg now).isEmpty = false := by
      cases hf : fetch_due_posts db lg now with
      | nil => exact absurd hf hne
      | cons a l => simp
    simp [publisher_attempts, h]
  | cons t rest ih =>
    intro now post db pid hpre hne
    have h0 : fetch_due_posts db lg t = [] := hpre t (by simp)
    have hrest : ∀ u ∈ rest, fetch_due_posts db lg u = [] :=
      fun u hu => hpre u (by simp [hu])
    simp [publisher_attempts, h0, ih now post db pid hrest hne]

theorem process_due_posts_msgs_length (env : PubEnv) (pm : Bool) :
    ∀ (batch : List DueTuple) (db : List ScheduledPost) (pid : Nat),
      (process_due_posts env pm db batch pid).2.2.1.length = batch.length := by
  intro batch
  induction batch with
  | nil => intro db pid; simp [process_due_posts]
  | cons t rest ih =>
    intro db pid
    cases t with
    | mk cid t2 =>
      cases t2 with
      | mk pf t3 =>
        cases t3 with
        | mk ct lg => simp [process_due_posts, ih]

/-- Claim C7: a publisher run performs at most one fetch round per entry of
times (max_attempts rounds, 3 by default: the max_attempts parameter of
run_publisher_sim defaults to 3) and, being a total function, always
terminates.  A run all of whose rounds fetch nothing ends cleanly with an
unchanged table, no records, no processed posts and the no-posts warning,
raising no error.  A run whose first non-empty round is preceded only by
empty rounds stops right after that round, having fully processed exactly
that batch (one summary per due post). -/
theorem C7_publisher_polling (env : PubEnv) (preview_mode : Bool)
    (selected_language : String) (times : List Nat) (db : List ScheduledPost)
    (pid : Nat) (prev_dir : List PostData) :
    (run_publisher_sim env selected_language preview_mode times db pid prev_dir).fetch_rounds
        ≤ times.length ∧
    ((∀ now ∈ times, fetch_due_posts db selected_language now = []) →
      run_publisher_sim env selected_language preview_mode times db pid prev_dir =
        { db := db, scheduled_posts_dir := [], processed_posts := [],
          fetch_rounds := times.length, no_posts_warning := true }) ∧
    (∀ pre now post, times = pre ++ now :: post →
      (∀ t ∈ pre, fetch_due_posts db selected_language t = []) →
      fetch_due_posts db selected_language now ≠ [] →
      run_publisher_sim env selected_language preview_mode times db pid prev_dir =
        { db := (process_due_posts env preview_mode db (fetch_due_posts db selected_language now) pid).1,
          scheduled_posts_dir := (process_due_posts env preview_mode db (fetch_due_posts db selected_language now) pid).2.1,
          processed_posts := (process_due_posts env preview_mode db (fetch_due_posts db selected_language now) pid).2.2.1,
          fetch_rounds := pre.length + 1,
          no_posts_warning := (process_due_posts env preview_mode db (fetch_due_posts db selected_language now) pid).2.2.1.isEmpty } ∧
      (run_publisher_sim env selected_language preview_mode times db pid prev_dir).processed_posts.length
          = (fetch_due_posts db selected_language now).length) := by
  refine ⟨?_, ?_, ?_⟩
  · simpa [run_publisher_sim, clear_scheduled_posts_dir] using
      publisher_attempts_rounds_le env preview_mode selected_language times db pid
  · intro hall
    simp [run_publisher_sim, clear_scheduled_posts_dir,
      publisher_attempts_all_empty env preview_mode selected_language times db pid hall]
  · intro pre now post hsplit hpre hne
    subst hsplit
    constructor
    · simp [run_publisher_sim, clear_scheduled_posts_dir,
        publisher_attempts_first_nonempty env preview_mode selected_language
          pre now post db pid hpre hne]
    · simp [run_publisher_sim, clear_scheduled_posts_dir,
        publisher_attempts_first_nonempty env preview_mode selected_language
          pre now post db pid hpre hne,
        process_due_posts_msgs_length]

theorem format_content_post_id (c : JsonDict) (ct pf a lg : String) (pid : Nat) :
    (format_content c ct pf a lg pid).post_id = pid := by
  unfold format_content
  repeat' split
  all_goals rfl

theorem publish_to_platform_cases (pf : String) (c : JsonDict) (ct a : String)
    (pm : Bool) (lg : String) (pid : Nat) :
    publish_to_platform pf c ct a pm lg pid = (false, none) ∨
    publish_to_platform pf c ct a pm lg pid =
      (true, some { format_content c ct pf a lg pid with
                      status := if pm then "preview" else "success" }) := by
  unfold publish_to_platform
  cases hc : (format_content c ct pf a lg pid).content with
  | none => left; simp [hc]
  | some p =>
    by_cases hpm : pm
    · right; simp [hc, hpm]
    · by_cases hk : pf ∈ knownPlatforms
      · right; simp [hc, hpm, hk]
      · left; simp [hc, hpm, hk]

theorem publish_to_platform_record_id (pf : String) (c : JsonDict) (ct a : String)
    (pm : Bool) (lg : String) (pid : Nat) (pd : PostData)
    (h : (publish_to_platform pf c ct a pm lg pid).2 = some pd) :
    pd.post_id = pid := by
  have hpid := format_content_post_id c ct pf a lg pid
  rcases publish_to_platform_cases pf c ct a pm lg pid with hc | hc
  · rw [hc] at h
    simp at h
  · rw [hc] at h
    simp only [Option.some.injEq] at h
    rw [← h]
    exact hpid

/-- The three shapes publish_content can take: failure before any transport
attempt (no content file, or missing mandated audio), or the transport
branch with the audio file it computed. -/
theorem publish_content_shape (env : PubEnv) (db : List ScheduledPost)
    (cid pf ct lg : String) (pm : Bool) (pid : Nat) :
    publish_content env db cid pf ct lg pm pid =
        (false, update_status db cid pf lg "failed", none, pid) ∨
    ∃ content audio_file,
      env.contentFile cid ct lg pf = some content ∧
      publish_content env db cid pf ct lg pm pid =
        (if (publish_to_platform pf content ct audio_file pm lg pid).1 then
           (true, update_status db cid pf lg (if pm then "preview" else "published"),
             (publish_to_platform pf content ct audio_file pm lg pid).2, pid + 1)
         else
           (false, update_status db cid pf lg "failed",
             (publish_to_platform pf content ct audio_file pm lg pid).2, pid + 1)) := by
  cases hcf : env.contentFile cid ct lg pf with
  | none => left; simp [publish_content, hcf]
  | some content =>
    by_cases hguard : (ct == "voice" && pf == "sanatan" &&
        ((if ct == "voice" then (env.audioFile cid lg pf).getD "" else "") == "")) = true
    · left
      simp only [publish_content, hcf]
      rw [if_pos hguard]
    · right
      refine ⟨content, if ct == "voice" then (env.audioFile cid lg pf).getD "" else "",
        rfl, ?_⟩
      simp only [publish_content, hcf]
      rw [if_neg hguard]

theorem publish_content_record_id (env : PubEnv) (db : List ScheduledPost)
    (cid pf ct lg : String) (pm : Bool) (pid : Nat) :
    (∀ pd, (publish_content env db cid pf ct lg pm pid).2.2.1 = some pd →
      pd.post_id = pid) ∧
    pid ≤ (publish_content env db cid pf ct lg pm pid).2.2.2 := by
  rcases publish_content_shape env db cid pf ct lg pm pid with h | ⟨content, audio_file, _, h⟩
  · rw [h]
    simp
  · rw [h]
    by_cases hok : (publish_to_platform pf content ct audio_file pm lg pid).1 = true
    · simp only [hok, if_true]
      exact ⟨fun pd hpd => publish_to_platform_record_id pf content ct audio_file pm lg pid pd hpd,
        Nat.le_succ pid⟩
    · simp only [hok, if_false, Bool.false_eq_true]
      exact ⟨fun pd hpd => publish_to_platform_record_id pf content ct audio_file pm lg pid pd hpd,
        Nat.le_succ pid⟩

theorem process_due_posts_record_ids (env : PubEnv) (pm : Bool) :
    ∀ (batch : List DueTuple) (db : List ScheduledPost) (pid : Nat),
      pid ≤ (process_due_posts env pm db batch pid).2.2.2 ∧
      ∀ rec ∈ (process_due_posts env pm db batch pid).2.1, pid ≤ rec.post_id := by
  intro batch
  induction batch with
  | nil => intro db pid; simp [process_due_posts]
  | cons t rest ih =>
    intro db pid
    obtain ⟨cid, pf, ct, lg⟩ := t
    have hstep := publish_content_record_id env db cid pf ct lg pm pid
    have hnext := ih (publish_content env db cid pf ct lg pm pid).2.1
      (publish_content env db cid pf ct lg pm pid).2.2.2
    constructor
    · simpa [process_due_posts] using le_trans hstep.2 hnext.1
    · intro rec hrec
      simp only [process_due_posts, List.mem_append] at hrec
      rcases hrec with hrec | hrec
      · have hsome : (publish_content env db cid pf ct lg pm pid).2.2.1 = some rec :=
          Option.mem_toList.mp hrec
        have := hstep.1 rec hsome
        omega
      · exact le_trans hstep.2 (hnext.2 rec hrec)

theorem publisher_attempts_record_ids (env : PubEnv) (pm : Bool) (lg : String) :
    ∀ (times : List Nat) (db : List ScheduledPost) (pid : Nat),
      ∀ rec ∈ (publisher_attempts env pm lg db pid times).2.1, pid ≤ rec.post_id := by
  intro times
  induction times with
  | nil => intro db pid rec hrec; simp [publisher_attempts] at hrec
  | cons now rest ih =>
    intro db pid rec hrec
    by_cases h : (fetch_due_posts db lg now).isEmpty
    · exact ih db pid rec (by simpa [publisher_attempts, h] using hrec)
    · exact (process_due_posts_record_ids env pm
        (fetch_due_posts db lg now) db pid).2 rec
        (by simpa [publisher_attempts, h] using hrec)

/-- Claim C10: a publisher run begins by deleting the whole scheduled_posts
directory and recreating it empty before processing any post: the outcome
is independent of whatever the directory held before, every record in the
directory afterwards was written by this run (its post id was drawn from
this run's fresh counter), and every record of an earlier run (post id
below this run's counter) is gone. -/
theorem C10_run_clears_delivery_dir (env : PubEnv) (selected_language : String)
    (preview_mode : Bool) (times : List Nat) (db : List ScheduledPost)
    (pid : Nat) (prev_dir : List PostData) :
    run_publisher_sim env selected_language preview_mode times db pid prev_dir =
      run_publisher_sim env selected_language preview_mode times db pid [] ∧
    (∀ rec ∈ (run_publisher_sim env selected_language preview_mode times db pid
        prev_dir).scheduled_posts_dir, pid ≤ rec.post_id) ∧
    (∀ rec ∈ prev_dir, rec.post_id < pid →
      rec ∉ (run_publisher_sim env selected_language preview_mode times db pid
        prev_dir).scheduled_posts_dir) := by
  refine ⟨rfl, ?_, ?_⟩
  · intro rec hrec
    exact publisher_attempts_record_ids env preview_mode selected_language
      times db pid rec
      (by simpa [run_publisher_sim, clear_scheduled_posts_dir] using hrec)
  · intro rec hrec hlt hmem
    have := publisher_attempts_record_ids env preview_mode selected_language
      times db pid rec
      (by simpa [run_publisher_sim, clear_scheduled_posts_dir] using hmem)
    omega

/-- Rows of an updated table that match the update key carry the written
status. -/
theorem update_status_mem (db : List ScheduledPost) (c p l s : String) :
    ∀ r ∈ update_status db c p l s, postKey r = (c, p, l) → r.status = s := by
  intro r hr hkey
  unfold update_status at hr
  rcases List.mem_map.mp hr with ⟨r0, _, hr0⟩
  by_cases hm : (r0.content_id == c && r0.platform == p && r0.lang == l) = true
  · rw [if_pos hm] at hr0
    rw [← hr0]
  · rw [if_neg hm] at hr0
    subst hr0
    exact absurd ((keyMatch_iff r0 c p l).mpr hkey) hm

/-- Claim C4, as frozen, fails on the code: a failed attempt writes no
delivery record.  Concretely, with no content file on disk the single due
post is attempted, ends failed, and the scheduled_posts directory stays
empty, where the claim requires exactly one DeliveryRecord for a failed
attempt too.  (The same happens on a simulated transport rejection:
publish_to_platform returns False before the record is written.) -/
theorem C4_counterexample :
    (run_publisher_sim
        { contentFile := fun _ _ _ _ => none, audioFile := fun _ _ _ => none }
        "en" false [5] [samplePost] 0 []).processed_posts =
      [processedMsg "1" "twitter" "tweet" "failed" "en"] ∧
    (run_publisher_sim
        { contentFile := fun _ _ _ _ => none, audioFile := fun _ _ _ => none }
        "en" false [5] [samplePost] 0 []).scheduled_posts_dir = [] ∧
    (run_publisher_sim
        { contentFile := fun _ _ _ _ => none, audioFile := fun _ _ _ => none }
        "en" false [5] [samplePost] 0 []).db.map (fun r => r.status) = ["failed"] := by
  decide

/-- Claim C4 (amended): for every due ScheduledPost the Publisher attempts,
a DeliveryRecord is written if and only if the attempt ends published or
preview: the record then captures the platform-formatted payload (it is the
formatted post_data, with its own status field success resp. preview) and
the ScheduledPost status is updated to published resp. preview.  An attempt
that ends failed (missing content artifact, missing mandated audio, or a
rejected simulated delivery) writes no DeliveryRecord; its ScheduledPost
status is still updated to failed. -/
theorem C4_delivery_record_amended (env : PubEnv) (db : List ScheduledPost)
    (cid pf ct lg : String) (pm : Bool) (pid : Nat) :
    ((publish_content env db cid pf ct lg pm pid).1 = false →
      (publish_content env db cid pf ct lg pm pid).2.2.1 = none ∧
      (publish_content env db cid pf ct lg pm pid).2.1 =
        update_status db cid pf lg "failed") ∧
    ((publish_content env db cid pf ct lg pm pid).1 = true →
      ∃ content audio_file,
        env.contentFile cid ct lg pf = some content ∧
        (publish_content env db cid pf ct lg pm pid).2.2.1 =
          some { format_content content ct pf audio_file lg pid with
                   status := if pm then "preview" else "success" } ∧
        (publish_content env db cid pf ct lg pm pid).2.1 =
          update_status db cid pf lg (if pm then "preview" else "published")) := by
  rcases publish_content_shape env db cid pf ct lg pm pid with h | ⟨content, audio_file, hcf, h⟩
  · rw [h]
    exact ⟨fun _ => ⟨rfl, rfl⟩, fun hfalse => by simp at hfalse⟩
  · rcases publish_to_platform_cases pf content ct audio_file pm lg pid with hout | hout
    · rw [h, hout]
      simp
    · rw [h, hout]
      constructor
      · intro hfalse
        simp at hfalse
      · intro _
        exact ⟨content, audio_file, hcf, by simp, by simp⟩

/-- A voice artifact declaring sanatan, as the scheduler may store it. -/
def voiceDictSanatan : JsonDict := [("id", "1"), ("platform", "sanatan"), ("voice_script", "om")]

/-- A tweet artifact declaring sanatan: schedule_content accepts it when
invoked with platform sanatan and content type tweet, since only the
declared platform is checked. -/
def tweetDictSanatan : JsonDict := [("id", "1"), ("platform", "sanatan"), ("tweet", "hi")]

/-- A table holding a voice row and a tweet row that share the
update_status key (content_id 1, sanatan, en), both built by
schedule_content. -/
def dbAudioOverwrite : List ScheduledPost :=
  schedule_content [some voiceDictSanatan] "sanatan" "voice" "en" 3600 0 ++
    schedule_content [some tweetDictSanatan] "sanatan" "tweet" "en" 3600 1

/-- A content store holding both artifacts but no audio file. -/
def envAudioOverwrite : PubEnv :=
  { contentFile := fun c t l p =>
      if c == "1" && t == "voice" && l == "en" && p == "sanatan" then some voiceDictSanatan
      else if c == "1" && t == "tweet" && l == "en" && p == "sanatan" then some tweetDictSanatan
      else none
    audioFile := fun _ _ _ => none }

/-- Claim C9, as frozen, fails on the code: a voice post for sanatan (the
audio-mandating platform) with no audio artifact is first marked failed,
but update_status matches rows by (content_id, platform, lang) only, so the
later due tweet entry sharing that key publishes and overwrites the voice
row too: its final status for the run is published, where the claim says it
is always failed and never published. -/
theorem C9_counterexample :
    (dbAudioOverwrite.map fun r => (r.content_type, r.status)) =
      [("voice", "pending"), ("tweet", "pending")] ∧
    envAudioOverwrite.audioFile "1" "en" "sanatan" = none ∧
    ((run_publisher_sim envAudioOverwrite "en" false [3600] dbAudioOverwrite
        10 []).db.map fun r => (r.content_type, r.status)) =
      [("voice", "published"), ("tweet", "published")] := by
  decide

/-- Claim C9 (amended): for every due post of content type voice whose
target platform is sanatan (the one platform mandating an audio companion),
if the companion audio artifact is absent the attempt marks the post failed
and writes no delivery record — the attempt never publishes it — and the
Publisher continues with the next due post rather than aborting the batch
(one summary per remaining due post is still produced).  The final status
for the run is failed unless a later due entry sharing the same
(content_id, platform, language) key overwrites it. -/
theorem C9_voice_audio_amended (env : PubEnv) (db : List ScheduledPost)
    (cid lg : String) (pm : Bool) (pid : Nat) (rest : List DueTuple)
    (haudio : env.audioFile cid lg "sanatan" = none) :
    publish_content env db cid "sanatan" "voice" lg pm pid =
      (false, update_status db cid "sanatan" lg "failed", none, pid) ∧
    (∀ r ∈ (publish_content env db cid "sanatan" "voice" lg pm pid).2.1,
      postKey r = (cid, "sanatan", lg) → r.status = "failed") ∧
    (process_due_posts env pm db ((cid, "sanatan", "voice", lg) :: rest) pid).2.2.1.length
      = rest.length + 1 := by
  have hmain : publish_content env db cid "sanatan" "voice" lg pm pid =
      (false, update_status db cid "sanatan" lg "failed", none, pid) := by
    cases hcf : env.contentFile cid "voice" lg "sanatan" with
    | none => simp [publish_content, hcf]
    | some content => simp [publish_content, hcf, haudio]
  refine ⟨hmain, ?_, ?_⟩
  · rw [hmain]
    exact update_status_mem db cid "sanatan" lg "failed"
  · exact process_due_posts_msgs_length env pm ((cid, "sanatan", "voice", lg) :: rest) db pid

theorem C9_voice_audio_amended_witness :
    publish_content
        { contentFile := fun _ _ _ _ => none, audioFile := fun _ _ _ => none }
        [samplePost] "1" "sanatan" "voice" "en" false 0 =
      (false, update_status [samplePost] "1" "sanatan" "en" "failed", none, 0) ∧
    (∀ r ∈ (publish_content
        { contentFile := fun _ _ _ _ => none, audioFile := fun _ _ _ => none }
        [samplePost] "1" "sanatan" "voice" "en" false 0).2.1,
      postKey r = ("1", "sanatan", "en") → r.status = "failed") ∧
    (process_due_posts
        { contentFile := fun _ _ _ _ => none, audioFile := fun _ _ _ => none }
        false [samplePost] [("1", "sanatan", "voice", "en")] 0).2.2.1.length
      = ([] : List DueTuple).length + 1 :=
  C9_voice_audio_amended
    { contentFile := fun _ _ _ _ => none, audioFile := fun _ _ _ => none }
    [samplePost] "1" "en" false 0 [] rfl

/-! ## The C3 machinery: the table after a batch as iterated update_status -/

theorem format_content_content_indep (c : JsonDict) (ct pf a lg : String) (pid : Nat) :
    (format_content c ct pf a lg pid).content = (format_content c ct pf a lg 0).content := by
  simp only [format_content]
  by_cases h1 : (pf == "instagram") = true
  · simp [h1]
  · by_cases h2 : (pf == "twitter") = true
    · simp [h1, h2]
    · by_cases h3 : (pf == "linkedin") = true
      · simp [h1, h2, h3]
      · by_cases h4 : (pf == "sanatan") = true
        · simp [h1, h2, h3, h4]
        · simp [h1, h2, h3, h4]

/-- Whether a transport attempt succeeds does not depend on the uuid
counter (the counter only enters the written record). -/
theorem publish_to_platform_fst_indep (pf : String) (c : JsonDict) (ct a : String)
    (pm : Bool) (lg : String) (pid : Nat) :
    (publish_to_platform pf c ct a pm lg pid).1 =
      (publish_to_platform pf c ct a pm lg 0).1 := by
  simp only [publish_to_platform]
  rw [format_content_content_indep c ct pf a lg pid]
  cases hc : (format_content c ct pf a lg 0).content with
  | none => simp [hc]
  | some p =>
    by_cases hpm : pm
    · simp [hc, hpm]
    · by_cases hk : pf ∈ knownPlatforms
      · simp [hc, hpm, hk]
      · simp [hc, hpm, hk]

/-- The status an attempt writes once the content file has been read: a
pure function of the filesystem, the preview flag and the tuple — not of
the table and not of the uuid counter. -/
def attempt_status_go (env : PubEnv) (pm : Bool) (t : DueTuple) (content : JsonDict) : String :=
  if t.2.2.1 == "voice" && t.2.1 == "sanatan" &&
      ((if t.2.2.1 == "voice" then (env.audioFile t.1 t.2.2.2 t.2.1).getD "" else "") == "") then
    "failed"
  else if (publish_to_platform t.2.1 content t.2.2.1
      (if t.2.2.1 == "voice" then (env.audioFile t.1 t.2.2.2 t.2.1).getD "" else "")
      pm t.2.2.2 0).1 then
    (if pm then "preview" else "published")
  else "failed"

def attempt_status (env : PubEnv) (pm : Bool) (t : DueTuple) : String :=
  ((env.contentFile t.1 t.2.2.1 t.2.2.2 t.2.1).map
    (fun content => attempt_status_go env pm t content)).getD "failed"

theorem attempt_status_go_terminal (env : PubEnv) (pm : Bool) (t : DueTuple)
    (content : JsonDict) :
    attempt_status_go env pm t content = "published" ∨
      attempt_status_go env pm t content = "failed" ∨
      attempt_status_go env pm t content = "preview" := by
  unfold attempt_status_go
  by_cases hg : (t.2.2.1 == "voice" && t.2.1 == "sanatan" &&
      ((if t.2.2.1 == "voice" then (env.audioFile t.1 t.2.2.2 t.2.1).getD "" else "") == "")) = true
  · rw [if_pos hg]
    simp
  · rw [if_neg hg]
    by_cases hok : (publish_to_platform t.2.1 content t.2.2.1
        (if t.2.2.1 == "voice" then (env.audioFile t.1 t.2.2.2 t.2.1).getD "" else "")
        pm t.2.2.2 0).1 = true
    · rw [if_pos hok]
      cases pm <;> simp
    · rw [if_neg hok]
      simp

theorem attempt_status_terminal (env : PubEnv) (pm : Bool) (t : DueTuple) :
    attempt_status env pm t = "published" ∨ attempt_status env pm t = "failed" ∨
      attempt_status env pm t = "preview" := by
  unfold attempt_status
  cases hcf : env.contentFile t.1 t.2.2.1 t.2.2.2 t.2.1 with
  | none => simp
  | some content =>
    simp only [Option.map_some', Option.getD_some]
    exact attempt_status_go_terminal env pm t content

/-- The table a single attempt leaves behind is update_status with the
attempt status of its tuple. -/
theorem publish_content_db_eq (env : PubEnv) (db : List ScheduledPost)
    (cid pf ct lg : String) (pm : Bool) (pid : Nat) :
    (publish_content env db cid pf ct lg pm pid).2.1 =
      update_status db cid pf lg (attempt_status env pm (cid, pf, ct, lg)) := by
  cases hcf : env.contentFile cid ct lg pf with
  | none => simp [publish_content, attempt_status, hcf]
  | some content =>
    by_cases hguard : (ct == "voice" && pf == "sanatan" &&
        ((if ct == "voice" then (env.audioFile cid lg pf).getD "" else "") == "")) = true
    · simp only [publish_content, attempt_status, attempt_status_go, hcf,
        Option.map_some', Option.getD_some]
      rw [if_pos hguard, if_pos hguard]
    · simp only [publish_content, attempt_status, attempt_status_go, hcf,
        Option.map_some', Option.getD_some]
      rw [if_neg hguard, if_neg hguard,
        publish_to_platform_fst_indep pf content ct
          (if ct == "voice" then (env.audioFile cid lg pf).getD "" else "") pm lg pid]
      by_cases hok : (publish_to_platform pf content ct
          (if ct == "voice" then (env.audioFile cid lg pf).getD "" else "") pm lg 0).1 = true
      · rw [if_pos hok, if_pos hok]
      · rw [if_neg hok, if_neg hok]

/-- Iterated update_status over a batch of due tuples. -/
def apply_updates (env : PubEnv) (pm : Bool) :
    List ScheduledPost → List DueTuple → List ScheduledPost
  | db, [] => db
  | db, t :: rest =>
    apply_updates env pm (update_status db t.1 t.2.1 t.2.2.2 (attempt_status env pm t)) rest

/-- The table process_due_posts leaves behind is the iterated update. -/
theorem process_due_posts_db_eq (env : PubEnv) (pm : Bool) :
    ∀ (batch : List DueTuple) (db : List ScheduledPost) (pid : Nat),
      (process_due_posts env pm db batch pid).1 = apply_updates env pm db batch := by
  intro batch
  induction batch with
  | nil => intro db pid; rfl
  | cons t rest ih =>
    intro db pid
    obtain ⟨cid, pf, ct, lg⟩ := t
    simp only [process_due_posts, apply_updates]
    rw [ih, publish_content_db_eq env db cid pf ct lg pm pid]

theorem apply_updates_append (env : PubEnv) (pm : Bool) :
    ∀ (b1 b2 : List DueTuple) (db : List ScheduledPost),
      apply_updates env pm db (b1 ++ b2) =
        apply_updates env pm (apply_updates env pm db b1) b2 := by
  intro b1
  induction b1 with
  | nil => intro b2 db; rfl
  | cons t rest ih =>
    intro b2 db
    simp only [List.cons_append, apply_updates, List.append_eq, ih]

theorem update_status_getElem? (db : List ScheduledPost) (c p l s : String) (i : Nat) :
    (update_status db c p l s)[i]? = (db[i]?).map (fun r =>
      if r.content_id == c && r.platform == p && r.lang == l then
        { r with status := s }
      else r) := by
  simp [update_status]

theorem update_status_keys (db : List ScheduledPost) (c p l s : String) :
    (update_status db c p l s).map postKey = db.map postKey := by
  unfold update_status
  rw [List.map_map]
  apply List.map_congr_left
  intro r _
  show postKey (if r.content_id == c && r.platform == p && r.lang == l then
      { r with status := s } else r) = postKey r
  split <;> rfl

theorem apply_updates_keys (env : PubEnv) (pm : Bool) :
    ∀ (batch : List DueTuple) (db : List ScheduledPost),
      (apply_updates env pm db batch).map postKey = db.map postKey := by
  intro batch
  induction batch with
  | nil => intro db; rfl
  | cons t rest ih =>
    intro db
    simp only [apply_updates, ih, update_status_keys]

/-- Iterated updates keep every row at its index and only ever rewrite the
status field. -/
theorem apply_updates_shape (env : PubEnv) (pm : Bool) :
    ∀ (batch : List DueTuple) (db : List ScheduledPost) (i : Nat),
      (db[i]? = none → (apply_updates env pm db batch)[i]? = none) ∧
      (∀ r, db[i]? = some r → ∃ s, (apply_updates env pm db batch)[i]? =
        some { r with status := s }) := by
  intro batch
  induction batch with
  | nil =>
    intro db i
    exact ⟨fun h => h, fun r h => ⟨r.status, h⟩⟩
  | cons t rest ih =>
    intro db i
    constructor
    · intro h
      have h1 : (update_status db t.1 t.2.1 t.2.2.2 (attempt_status env pm t))[i]? = none := by
        rw [update_status_getElem?, h]
        rfl
      exact (ih _ i).1 h1
    · intro r h
      by_cases hm : (r.content_id == t.1 && r.platform == t.2.1 && r.lang == t.2.2.2) = true
      · have h1 : (update_status db t.1 t.2.1 t.2.2.2 (attempt_status env pm t))[i]? =
            some { r with status := attempt_status env pm t } := by
          rw [update_status_getElem?, h]
          simp only [Option.map_some']
          rw [if_pos hm]
        rcases (ih _ i).2 _ h1 with ⟨s, hs⟩
        exact ⟨s, hs⟩
      · have h1 : (update_status db t.1 t.2.1 t.2.2.2 (attempt_status env pm t))[i]? =
            some r := by
          rw [update_status_getElem?, h]
          simp only [Option.map_some']
          rw [if_neg hm]
        exact (ih _ i).2 r h1

/-- A row whose key no batch tuple carries is untouched by the batch. -/
theorem apply_updates_untouched (env : PubEnv) (pm : Bool) :
    ∀ (batch : List DueTuple) (db : List ScheduledPost) (i : Nat) (r : ScheduledPost),
      db[i]? = some r → (∀ t ∈ batch, tupleKey t ≠ postKey r) →
      (apply_updates env pm db batch)[i]? = some r := by
  intro batch
  induction batch with
  | nil => intro db i r h _; exact h
  | cons t rest ih =>
    intro db i r h hne
    have hm : ¬(r.content_id == t.1 && r.platform == t.2.1 && r.lang == t.2.2.2) = true := by
      intro hc
      have hkey : postKey r = (t.1, t.2.1, t.2.2.2) := (keyMatch_iff r t.1 t.2.1 t.2.2.2).mp hc
      exact hne t (by simp) hkey.symm
    have h1 : (update_status db t.1 t.2.1 t.2.2.2 (attempt_status env pm t))[i]? = some r := by
      rw [update_status_getElem?, h]
      simp only [Option.map_some']
      rw [if_neg hm]
    exact ih _ i r h1 (fun u hu => hne u (by simp [hu]))

/-- If a row status changed across a batch, some batch tuple carries its
key and the new status is one the publisher writes, hence terminal. -/
theorem apply_updates_status_origin (env : PubEnv) (pm : Bool) :
    ∀ (batch : List DueTuple) (db : List ScheduledPost) (i : Nat) (r r2 : ScheduledPost),
      db[i]? = some r → (apply_updates env pm db batch)[i]? = some r2 →
      r2.status = r.status ∨ ∃ t ∈ batch, tupleKey t = postKey r ∧
        (r2.status = "published" ∨ r2.status = "failed" ∨ r2.status = "preview") := by
  intro batch
  induction batch with
  | nil =>
    intro db i r r2 h h2
    left
    have : some r = some r2 := by rw [← h, ← h2]; rfl
    cases this
    rfl
  | cons t rest ih =>
    intro db i r r2 h h2
    by_cases hm : (r.content_id == t.1 && r.platform == t.2.1 && r.lang == t.2.2.2) = true
    · have hkey : postKey r = (t.1, t.2.1, t.2.2.2) := (keyMatch_iff r t.1 t.2.1 t.2.2.2).mp hm
      have h1 : (update_status db t.1 t.2.1 t.2.2.2 (attempt_status env pm t))[i]? =
          some { r with status := attempt_status env pm t } := by
        rw [update_status_getElem?, h]
        simp only [Option.map_some']
        rw [if_pos hm]
      have h2' : (apply_updates env pm
          (update_status db t.1 t.2.1 t.2.2.2 (attempt_status env pm t)) rest)[i]? =
          some r2 := h2
      rcases ih _ i _ r2 h1 h2' with hst | ⟨u, hu, hukey, hterm⟩
      · right
        refine ⟨t, by simp, hkey.symm, ?_⟩
        rw [hst]
        exact attempt_status_terminal env pm t
      · right
        exact ⟨u, by simp [hu], hukey, hterm⟩
    · have h1 : (update_status db t.1 t.2.1 t.2.2.2 (attempt_status env pm t))[i]? =
          some r := by
        rw [update_status_getElem?, h]
        simp only [Option.map_some']
        rw [if_neg hm]
      rcases ih _ i r r2 h1 h2 with hst | ⟨u, hu, hukey, hterm⟩
      · left; exact hst
      · right; exact ⟨u, by simp [hu], hukey, hterm⟩

theorem fetch_due_posts_keys (db : List ScheduledPost) (lg : String) (now : Nat) :
    (fetch_due_posts db lg now).map tupleKey =
      (db.filter (fun r => r.status == "pending" && decide (r.scheduled_time ≤ now) &&
        (lg == "all" || r.lang == lg))).map postKey := by
  unfold fetch_due_posts
  rw [List.map_map]
  apply List.map_congr_left
  intro r _
  rfl

theorem fetch_due_posts_keys_nodup (db : List ScheduledPost) (lg : String) (now : Nat)
    (h : (db.map postKey).Nodup) :
    ((fetch_due_posts db lg now).map tupleKey).Nodup := by
  rw [fetch_due_posts_keys]
  exact List.Nodup.sublist (List.Sublist.map postKey (List.filter_sublist db)) h

/-- A tweet artifact declaring twitter. -/
def tweetDictTwitter : JsonDict := [("id", "1"), ("platform", "twitter"), ("tweet", "hi")]

/-- A voice artifact declaring twitter: schedule_content accepts it when
invoked with platform twitter and content type voice. -/
def voiceDictTwitter : JsonDict := [("id", "1"), ("platform", "twitter"), ("voice_script", "om")]

/-- A table with a tweet row and a voice row sharing the update_status key
(content_id 1, twitter, en), both built by schedule_content. -/
def dbTerminalFlip : List ScheduledPost :=
  schedule_content [some tweetDictTwitter] "twitter" "tweet" "en" 3600 0 ++
    schedule_content [some voiceDictTwitter] "twitter" "voice" "en" 3600 1

/-- A content store holding the tweet artifact but not the voice one. -/
def envTerminalFlip : PubEnv :=
  { contentFile := fun c t l p =>
      if c == "1" && t == "tweet" && l == "en" && p == "twitter" then some tweetDictTwitter
      else none
    audioFile := fun _ _ _ => none }

/-- Claim C3, as frozen, fails on the code: within one publisher run, the
first due tuple publishes and sets the tweet row to the terminal status
published (update_status also rewrites the same-key voice row), then the
second due tuple fails (no voice content file) and rewrites both rows to
failed: a record left a terminal status, moving published to failed. -/
theorem C3_counterexample :
    fetch_due_posts dbTerminalFlip "en" 3600 =
      [("1", "twitter", "tweet", "en"), ("1", "twitter", "voice", "en")] ∧
    ((process_due_posts envTerminalFlip false dbTerminalFlip
        [("1", "twitter", "tweet", "en")] 10).1.map fun r => r.status) =
      ["published", "published"] ∧
    ((process_due_posts envTerminalFlip false dbTerminalFlip
        (fetch_due_posts dbTerminalFlip "en" 3600) 10).1.map fun r => r.status) =
      ["failed", "failed"] := by
  decide

/-- Claim C3 (amended): within one publisher run over a table whose rows
have pairwise distinct (content_id, platform, lang) keys — the key
update_status matches on — every record behaves as the claim states: the
full batch equals any prefix followed by the rest (so the statement covers
every intermediate moment); a record that is terminal before the run is
never touched; a record that is terminal after a prefix of the batch is
left exactly as it is by the remaining operations; and every record either
keeps its status or moves from pending to exactly one of published, failed
or preview, all other fields unchanged.  Without the key-uniqueness proviso
a later same-key due entry can rewrite an earlier terminal status (see the
counterexample). -/
theorem C3_terminal_stable_amended (env : PubEnv) (pm : Bool)
    (db : List ScheduledPost) (lg : String) (now : Nat)
    (b1 b2 : List DueTuple) (pid1 pid2 pid3 : Nat) (i : Nat)
    (hnodup : (db.map postKey).Nodup)
    (hsplit : fetch_due_posts db lg now = b1 ++ b2) :
    (process_due_posts env pm db (fetch_due_posts db lg now) pid1).1 =
      (process_due_posts env pm (process_due_posts env pm db b1 pid2).1 b2 pid3).1 ∧
    (∀ r, db[i]? = some r → r.status ≠ "pending" →
      ((process_due_posts env pm db (fetch_due_posts db lg now) pid1).1)[i]? = some r) ∧
    (∀ r, ((process_due_posts env pm db b1 pid2).1)[i]? = some r → r.status ≠ "pending" →
      ((process_due_posts env pm (process_due_posts env pm db b1 pid2).1 b2 pid3).1)[i]? =
        some r) ∧
    (∀ r r2, db[i]? = some r →
      ((process_due_posts env pm db (fetch_due_posts db lg now) pid1).1)[i]? = some r2 →
      r2 = { r with status := r2.status } ∧
      (r2.status = r.status ∨ (r.status = "pending" ∧
        (r2.status = "published" ∨ r2.status = "failed" ∨ r2.status = "preview")))) := by
  have hfull : (process_due_posts env pm db (fetch_due_posts db lg now) pid1).1 =
      apply_updates env pm db (b1 ++ b2) := by
    rw [process_due_posts_db_eq env pm _ db pid1, hsplit]
  have hmid : (process_due_posts env pm db b1 pid2).1 = apply_updates env pm db b1 :=
    process_due_posts_db_eq env pm b1 db pid2
  have hrest : (process_due_posts env pm (process_due_posts env pm db b1 pid2).1 b2 pid3).1 =
      apply_updates env pm (apply_updates env pm db b1) b2 := by
    rw [process_due_posts_db_eq env pm b2 _ pid3, hmid]
  have happ : apply_updates env pm db (b1 ++ b2) =
      apply_updates env pm (apply_updates env pm db b1) b2 :=
    apply_updates_append env pm b1 b2 db
  have hpend : ∀ t ∈ fetch_due_posts db lg now,
      ∃ rp ∈ db, rp.status = "pending" ∧ tupleKey t = postKey rp := by
    intro t ht
    rcases mem_fetch_due_posts db lg now t ht with ⟨rp, hrp, hps, _, _, hteq⟩
    exact ⟨rp, hrp, hps, by rw [hteq]; rfl⟩
  have hinj : ∀ x ∈ db, ∀ y ∈ db, postKey x = postKey y → x = y :=
    fun x hx y hy => List.inj_on_of_nodup_map hnodup hx hy
  have hterm_nokey : ∀ r, db[i]? = some r → r.status ≠ "pending" →
      ∀ t ∈ fetch_due_posts db lg now, tupleKey t ≠ postKey r := by
    intro r hr hrs t ht hkey
    rcases hpend t ht with ⟨rp, hrp, hps, hkey2⟩
    have hrdb : r ∈ db := List.getElem?_mem hr
    have hrp_eq : rp = r := hinj rp hrp r hrdb (by rw [← hkey2, hkey])
    rw [hrp_eq] at hps
    exact hrs hps
  refine ⟨by rw [hfull, hrest, happ], ?_, ?_, ?_⟩
  · intro r hr hrs
    rw [hfull]
    exact apply_updates_untouched env pm (b1 ++ b2) db i r hr
      (fun t ht => hterm_nokey r hr hrs t (by rw [hsplit]; exact ht))
  · intro r hmidr hrs
    rw [hrest]
    rw [hmid] at hmidr
    apply apply_updates_untouched env pm b2 _ i r hmidr
    intro u hu hukey
    cases hr0 : db[i]? with
    | none =>
      have hnone := (apply_updates_shape env pm b1 db i).1 hr0
      rw [hnone] at hmidr
      cases hmidr
    | some r0 =>
      rcases (apply_updates_shape env pm b1 db i).2 r0 hr0 with ⟨s, hs⟩
      have hr_eq : r = { r0 with status := s } := by
        rw [hmidr] at hs
        cases hs
        rfl
      have hkey0 : postKey r = postKey r0 := by rw [hr_eq]; rfl
      have hu_fetch : u ∈ fetch_due_posts db lg now := by
        rw [hsplit]
        exact List.mem_append_right b1 hu
      rcases hpend u hu_fetch with ⟨rp, hrp, hps, hukey2⟩
      have hr0db : r0 ∈ db := List.getElem?_mem hr0
      have hr0p : rp = r0 := hinj rp hrp r0 hr0db (by rw [← hukey2, hukey, hkey0])
      have hr0pend : r0.status = "pending" := by rw [← hr0p]; exact hps
      by_cases hb1 : ∀ t1 ∈ b1, tupleKey t1 ≠ postKey r0
      · have huntouched : (apply_updates env pm db b1)[i]? = some r0 :=
          apply_updates_untouched env pm b1 db i r0 hr0 hb1
        rw [hmidr] at huntouched
        cases huntouched
        exact hrs hr0pend
      · push_neg at hb1
        rcases hb1 with ⟨t1, ht1, ht1key⟩
        have hkeys : ((b1 ++ b2).map tupleKey).Nodup := by
          rw [← hsplit]
          exact fetch_due_posts_keys_nodup db lg now hnodup
        rw [List.map_append] at hkeys
        have hdisj := (List.nodup_append.mp hkeys).2.2
        have htu : tupleKey t1 = tupleKey u := by rw [ht1key, hukey, hkey0]
        exact hdisj (List.mem_map_of_mem tupleKey ht1)
          (htu ▸ List.mem_map_of_mem tupleKey hu)
  · intro r r2 hr hr2
    rw [hfull] at hr2
    rcases (apply_updates_shape env pm (b1 ++ b2) db i).2 r hr with ⟨s, hs⟩
    have heq : r2 = { r with status := s } := by
      rw [hr2] at hs
      cases hs
      rfl
    constructor
    · rw [heq]
    · rcases apply_updates_status_origin env pm (b1 ++ b2) db i r r2 hr hr2 with
        hst | ⟨t, ht, htkey, hterm⟩
      · left; exact hst
      · right
        have ht_fetch : t ∈ fetch_due_posts db lg now := by rw [hsplit]; exact ht
        rcases hpend t ht_fetch with ⟨rp, hrp, hps, htkey2⟩
        have hrdb : r ∈ db := List.getElem?_mem hr
        have hrp_eq : rp = r := hinj rp hrp r hrdb (by rw [← htkey2, htkey])
        rw [hrp_eq] at hps
        exact ⟨hps, hterm⟩

/-- An empty content store. -/
def pubEnvNone : PubEnv :=
  { contentFile := fun _ _ _ _ => none, audioFile := fun _ _ _ => none }

theorem C3_terminal_stable_amended_witness :
    (process_due_posts pubEnvNone false [samplePost]
        (fetch_due_posts [samplePost] "en" 5) 0).1 =
      (process_due_posts pubEnvNone false
        (process_due_posts pubEnvNone false [samplePost] ([] : List DueTuple) 0).1
        [("1", "twitter", "tweet", "en")] 0).1 ∧
    (∀ r, ([samplePost] : List ScheduledPost)[0]? = some r → r.status ≠ "pending" →
      ((process_due_posts pubEnvNone false [samplePost]
        (fetch_due_posts [samplePost] "en" 5) 0).1)[0]? = some r) ∧
    (∀ r, ((process_due_posts pubEnvNone false [samplePost]
        ([] : List DueTuple) 0).1)[0]? = some r → r.status ≠ "pending" →
      ((process_due_posts pubEnvNone false
        (process_due_posts pubEnvNone false [samplePost] ([] : List DueTuple) 0).1
        [("1", "twitter", "tweet", "en")] 0).1)[0]? = some r) ∧
    (∀ r r2, ([samplePost] : List ScheduledPost)[0]? = some r →
      ((process_due_posts pubEnvNone false [samplePost]
        (fetch_due_posts [samplePost] "en" 5) 0).1)[0]? = some r2 →
      r2 = { r with status := r2.status } ∧
      (r2.status = r.status ∨ (r.status = "pending" ∧
        (r2.status = "published" ∨ r2.status = "failed" ∨ r2.status = "preview")))) :=
  C3_terminal_stable_amended pubEnvNone false [samplePost] "en" 5
    [] [("1", "twitter", "tweet", "en")] 0 0 0 0 (by decide) (by decide)

/-! ## Orchestrator (cli/command_center.py)

The process maps are modelled as association lists with Python dict
semantics: assignment replaces in place or appends, del removes the key,
membership is key lookup.  A launched process handle is its pid; pids play
no role in the claims, so launches store 0.  Stage outcomes come from an
exit-code oracle, and per-stage file and store effects are abstracted as
one token per launched stage appended to an effects journal that nothing
ever removes (no rollback). -/

/-- The fixed ordered pipeline: agent id and display name
    (command_center.py lines 74 to 85). -/
def PIPELINE : List (String × String) :=
  [("miner_sanitizer", "Agent A: Miner & Sanitizer"),
   ("multilingual_pipeline", "Agent F: Multilingual Router"),
   ("sentiment_tuner", "Agent H: Sentiment Tuner"),
   ("ai_writer_voicegen", "Agent G: AI Writer & Voice Generator"),
   ("security_guard", "Agent E: Security & Compliance"),
   ("adaptive_targeter", "Agent I: Context-Aware Platform Targeter"),
   ("scheduler", "Agent D: Scheduler"),
   ("publisher_sim", "Agent D: Publisher Simulator"),
   ("analytics_collector", "Agent K: Analytics Collector"),
   ("strategy_recommender", "Adaptive Improvement Trigger")]

/-- Python dict assignment: replace in place, else append. -/
def dset {α : Type} : List (String × α) → String → α → List (String × α)
  | [], k, v => [(k, v)]
  | (k0, v0) :: rest, k, v =>
    if k0 == k then (k, v) :: rest else (k0, v0) :: dset rest k v

/-- Python del on a dict: the key is gone afterwards. -/
def ddel {α : Type} : List (String × α) → String → List (String × α)
  | [], _ => []
  | p :: rest, k => if p.1 == k then ddel rest k else p :: ddel rest k

/-- Python membership on a dict. -/
def dhas {α : Type} (m : List (String × α)) (k : String) : Bool :=
  m.any (fun p => p.1 == k)

/-- Python dict lookup. -/
def dfind {α : Type} (m : List (String × α)) (k : String) : Option α :=
  (m.find? (fun p => p.1 == k)).map (fun p => p.2)

/-- The two module-level maps: active_processes (stage id to pid) and
active_pipelines (pipeline key to member stage ids). -/
structure OrchState where
  active_processes : List (String × Nat)
  active_pipelines : List (String × List String)
deriving DecidableEq, Repr

/-- The observable result of one run_pipeline call. -/
inductive PipeResult where
  | envError
  | alreadyRunning
  | completed
  | failedAt (agent_name : String) (code : Int)
deriving DecidableEq, Repr

/-- State, result, the stages actually launched (in order) and the effects
journal of one run_pipeline call. -/
structure PipeOutcome where
  state : OrchState
  result : PipeResult
  launched : List String
  effects : List String
deriving DecidableEq, Repr

/-- The stage loop of run_pipeline (command_center.py lines 152 to 194):
launch the stage (record its handle and append it to the pipeline entry),
wait, and on a non-zero exit raise — the except/finally then removes the
pipeline entry but NOT the stage handle, which is deleted only on the
success path (lines 181 to 183).  On normal exhaustion of the stage list
the finally removes the pipeline entry. -/
def run_stages (exitCode : String → Int) (pkey : String) :
    List (String × String) → OrchState → List String → List String → PipeOutcome
  | [], st, launched, effects =>
    ⟨⟨st.active_processes, ddel st.active_pipelines pkey⟩, .completed, launched, effects⟩
  | (agent_id, agent_name) :: rest, st, launched, effects =>
    let st1 : OrchState :=
      ⟨dset st.active_processes agent_id 0,
       dset st.active_pipelines pkey (((dfind st.active_pipelines pkey).getD []) ++ [agent_id])⟩
    if exitCode agent_id ≠ 0 then
      ⟨⟨st1.active_processes, ddel st1.active_pipelines pkey⟩,
        .failedAt agent_name (exitCode agent_id),
        launched ++ [agent_id], effects ++ [agent_id]⟩
    else
      run_stages exitCode pkey rest
        ⟨ddel st1.active_processes agent_id, st1.active_pipelines⟩
        (launched ++ [agent_id]) (effects ++ [agent_id])

/-- run_pipeline (command_center.py lines 136 to 194): refuse when the
environment is invalid; refuse with an already-running response, touching
nothing, when the pipeline key is active; otherwise create the pipeline
entry and run the stages. -/
def run_pipeline (envOk : Bool) (exitCode : String → Int) (st : OrchState)
    (language : String) : PipeOutcome :=
  if !envOk then ⟨st, .envError, [], []⟩
  else if dhas st.active_pipelines ("pipeline_" ++ language) then
    ⟨st, .alreadyRunning, [], []⟩
  else
    run_stages exitCode ("pipeline_" ++ language) PIPELINE
      ⟨st.active_processes, dset st.active_pipelines ("pipeline_" ++ language) []⟩ [] []

/-- kill_process (command_center.py lines 243 to 265): nothing happens for
an untracked agent; otherwise the process is terminated (forcibly after a
timeout) and the finally clause always removes the handle. -/
def kill_process (st : OrchState) (agent : String) : OrchState :=
  if dhas st.active_processes agent then
    ⟨ddel st.active_processes agent, st.active_pipelines⟩
  else st

/-- The member loop of kill_pipeline (command_center.py lines 275 to 277):
kill each member stage that is currently tracked. -/
def kill_pipeline_stages (st : OrchState) : List String → OrchState
  | [] => st
  | a :: rest =>
    kill_pipeline_stages (if dhas st.active_processes a then kill_process st a else st) rest

/-- kill_pipeline (command_center.py lines 267 to 281): nothing happens
without an active entry; otherwise every tracked member stage is killed and
the pipeline entry is removed. -/
def kill_pipeline (st : OrchState) (language : String) : OrchState :=
  match dfind st.active_pipelines ("pipeline_" ++ language) with
  | none => st
  | some agents =>
    let st1 := kill_pipeline_stages st agents
    ⟨st1.active_processes, ddel st1.active_pipelines ("pipeline_" ++ language)⟩

/-! ## Dictionary lemmas -/

theorem dhas_cons {α : Type} (p : String × α) (m : List (String × α)) (k : String) :
    dhas (p :: m) k = (p.1 == k || dhas m k) := rfl

theorem dhas_ddel_self {α : Type} (m : List (String × α)) (k : String) :
    dhas (ddel m k) k = false := by
  induction m with
  | nil => rfl
  | cons p rest ih =>
    by_cases h : (p.1 == k) = true
    · rw [ddel, if_pos h]
      exact ih
    · rw [ddel, if_neg h, dhas_cons, ih]
      simp only [Bool.or_false]
      exact Bool.not_eq_true _ ▸ (by simpa using h)

theorem dhas_ddel_other {α : Type} (m : List (String × α)) (k k' : String)
    (hne : k' ≠ k) :
    dhas (ddel m k) k' = dhas m k' := by
  induction m with
  | nil => rfl
  | cons p rest ih =>
    by_cases h : (p.1 == k) = true
    · have hp : p.1 = k := by simpa using h
      have hpk : (p.1 == k') = false := by
        rw [hp]
        exact beq_eq_false_iff_ne.mpr (fun hc => hne hc.symm)
      rw [ddel, if_pos h, ih, dhas_cons, hpk]
      simp
    · rw [ddel, if_neg h, dhas_cons, dhas_cons, ih]

theorem dhas_ddel_imp {α : Type} (m : List (String × α)) (k a : String)
    (h : dhas (ddel m k) a = true) : dhas m a = true := by
  by_cases hak : a = k
  · subst hak
    rw [dhas_ddel_self] at h
    cases h
  · rwa [dhas_ddel_other m k a hak] at h

theorem dhas_dset_self {α : Type} (m : List (String × α)) (k : String) (v : α) :
    dhas (dset m k v) k = true := by
  induction m with
  | nil => simp [dset, dhas]
  | cons p rest ih =>
    by_cases h : (p.1 == k) = true
    · rw [dset, if_pos h, dhas_cons]
      simp
    · rw [dset, if_neg h, dhas_cons, ih]
      simp

theorem dhas_dset_other {α : Type} (m : List (String × α)) (k k' : String) (v : α)
    (hne : k' ≠ k) :
    dhas (dset m k v) k' = dhas m k' := by
  have hkk : (k == k') = false := beq_eq_false_iff_ne.mpr (fun hc => hne hc.symm)
  induction m with
  | nil =>
    show ((k == k') || dhas [] k') = dhas ([] : List (String × α)) k'
    rw [hkk]
    simp
  | cons p rest ih =>
    by_cases h : (p.1 == k) = true
    · have hp : p.1 = k := by simpa using h
      rw [dset, if_pos h, dhas_cons, dhas_cons, hkk, hp, hkk]
    · rw [dset, if_neg h, dhas_cons, dhas_cons, ih]

theorem dfind_none_dhas {α : Type} (m : List (String × α)) (k : String)
    (h : dfind m k = none) : dhas m k = false := by
  unfold dfind at h
  rcases Option.map_eq_none'.mp h with hf
  rw [List.find?_eq_none] at hf
  unfold dhas
  rw [List.any_eq_false]
  intro p hp
  simp [hf p hp]

/-! ## Kill operation lemmas -/

theorem kill_process_state (st : OrchState) (agent : String) :
    dhas (kill_process st agent).active_processes agent = false ∧
    (kill_process st agent).active_pipelines = st.active_pipelines := by
  unfold kill_process
  by_cases h : dhas st.active_processes agent = true
  · simp [h, dhas_ddel_self]
  · simp [h]

theorem kill_pipeline_stages_pipelines (st : OrchState) :
    ∀ agents, (kill_pipeline_stages st agents).active_pipelines = st.active_pipelines := by
  intro agents
  induction agents generalizing st with
  | nil => rfl
  | cons a rest ih =>
    show (kill_pipeline_stages _ rest).active_pipelines = _
    rw [ih]
    by_cases h : dhas st.active_processes a = true
    · simp [h, (kill_process_state st a).2]
    · simp [h]

theorem kill_pipeline_stages_no_new (st : OrchState) :
    ∀ agents a, dhas (kill_pipeline_stages st agents).active_processes a = true →
      dhas st.active_processes a = true := by
  intro agents
  induction agents generalizing st with
  | nil => intro a h; exact h
  | cons b rest ih =>
    intro a h
    have h1 := ih _ a h
    by_cases hb : dhas st.active_processes b = true
    · rw [if_pos hb] at h1
      unfold kill_process at h1
      rw [if_pos hb] at h1
      exact dhas_ddel_imp _ b a h1
    · rwa [if_neg hb] at h1

theorem kill_pipeline_stages_removes (st : OrchState) :
    ∀ agents, ∀ a ∈ agents,
      dhas (kill_pipeline_stages st agents).active_processes a = false := by
  intro agents
  induction agents generalizing st with
  | nil => intro a ha; cases ha
  | cons b rest ih =>
    intro a ha
    rcases List.mem_cons.mp ha with rfl | ha
    · by_cases hrest : dhas (kill_pipeline_stages
          (if dhas st.active_processes a = true then kill_process st a else st)
          rest).active_processes a = true
      · have h1 := kill_pipeline_stages_no_new _ rest a hrest
        by_cases hb : dhas st.active_processes a = true
        · rw [if_pos hb] at h1
          rw [(kill_process_state st a).1] at h1
          cases h1
        · rw [if_neg hb] at h1
          exact absurd h1 hb
      · simpa using hrest
    · exact ih _ a ha

theorem kill_pipeline_clean (st : OrchState) (language : String) :
    dhas (kill_pipeline st language).active_pipelines ("pipeline_" ++ language) = false ∧
    ∀ agents, dfind st.active_pipelines ("pipeline_" ++ language) = some agents →
      ∀ a ∈ agents, dhas (kill_pipeline st language).active_processes a = false := by
  unfold kill_pipeline
  cases hfind : dfind st.active_pipelines ("pipeline_" ++ language) with
  | none =>
    refine ⟨dfind_none_dhas _ _ hfind, ?_⟩
    intro agents hag
    cases hag
  | some agents =>
    constructor
    · exact dhas_ddel_self _ _
    · intro agents2 hag
      cases hag
      exact kill_pipeline_stages_removes st agents

/-! ## run_stages lemmas -/

theorem run_stages_pipelines_removed (ec : String → Int) (pkey : String) :
    ∀ (stages : List (String × String)) (st : OrchState) (l e : List String),
      dhas (run_stages ec pkey stages st l e).state.active_pipelines pkey = false := by
  intro stages
  induction stages with
  | nil => intro st l e; exact dhas_ddel_self _ _
  | cons s rest ih =>
    intro st l e
    obtain ⟨agent_id, agent_name⟩ := s
    simp only [run_stages]
    by_cases h : ec agent_id = 0
    · rw [if_neg (fun hc => hc h)]
      exact ih _ _ _
    · rw [if_pos h]
      exact dhas_ddel_self _ _

theorem run_stages_processes_other (ec : String → Int) (pkey : String) :
    ∀ (stages : List (String × String)) (st : OrchState) (l e : List String) (a : String),
      a ∉ stages.map Prod.fst →
      dhas (run_stages ec pkey stages st l e).state.active_processes a =
        dhas st.active_processes a := by
  intro stages
  induction stages with
  | nil => intro st l e a _; rfl
  | cons s rest ih =>
    intro st l e a ha
    obtain ⟨agent_id, agent_name⟩ := s
    have hne : a ≠ agent_id := by
      intro hc
      exact ha (by simp [hc])
    have hrest : a ∉ rest.map Prod.fst := fun hc => ha (by simp [hc])
    simp only [run_stages]
    by_cases h : ec agent_id = 0
    · rw [if_neg (fun hc => hc h)]
      rw [ih _ _ _ a hrest]
      show dhas (ddel (dset st.active_processes agent_id 0) agent_id) a = _
      rw [dhas_ddel_other _ _ _ hne, dhas_dset_other _ _ _ _ hne]
    · rw [if_pos h]
      show dhas (dset st.active_processes agent_id 0) a = _
      exact dhas_dset_other _ _ _ _ hne

theorem run_stages_success_clean (ec : String → Int) (pkey : String) :
    ∀ (stages : List (String × String)) (st : OrchState) (l e : List String),
      (∀ s ∈ stages, ec s.1 = 0) →
      ∀ a ∈ stages.map Prod.fst,
        dhas (run_stages ec pkey stages st l e).state.active_processes a = false := by
  intro stages
  induction stages with
  | nil => intro st l e _ a ha; cases ha
  | cons s rest ih =>
    intro st l e hok a ha
    obtain ⟨agent_id, agent_name⟩ := s
    have h0 : ec agent_id = 0 := hok (agent_id, agent_name) (by simp)
    simp only [run_stages]
    rw [if_neg (fun hc => hc h0)]
    by_cases hmem : a ∈ rest.map Prod.fst
    · exact ih _ _ _ (fun s hs => hok s (by simp [hs])) a hmem
    · have haid : a = agent_id := by
        rcases List.mem_map.mp ha with ⟨q, hq, rfl⟩
        rcases List.mem_cons.mp hq with rfl | hq2
        · rfl
        · exact absurd (List.mem_map_of_mem Prod.fst hq2) hmem
      subst haid
      rw [run_stages_processes_other ec pkey rest _ _ _ a hmem]
      show dhas (ddel (dset st.active_processes a 0) a) a = false
      exact dhas_ddel_self _ _

theorem run_stages_success (ec : String → Int) (pkey : String) :
    ∀ (stages : List (String × String)) (st : OrchState) (l e : List String),
      (∀ s ∈ stages, ec s.1 = 0) →
      (run_stages ec pkey stages st l e).result = .completed ∧
      (run_stages ec pkey stages st l e).launched = l ++ stages.map Prod.fst ∧
      (run_stages ec pkey stages st l e).effects = e ++ stages.map Prod.fst := by
  intro stages
  induction stages with
  | nil => intro st l e _; exact ⟨rfl, by simp [run_stages], by simp [run_stages]⟩
  | cons s rest ih =>
    intro st l e hok
    obtain ⟨agent_id, agent_name⟩ := s
    have h0 : ec agent_id = 0 := hok (agent_id, agent_name) (by simp)
    simp only [run_stages]
    rw [if_neg (fun hc => hc h0)]
    rcases ih _ _ _ (fun s hs => hok s (by simp [hs])) with ⟨h1, h2, h3⟩
    exact ⟨h1, by rw [h2]; simp, by rw [h3]; simp⟩

theorem run_stages_fail (ec : String → Int) (pkey : String) :
    ∀ (k : Nat) (stages : List (String × String)) (hk : k < stages.length)
      (st : OrchState) (l e : List String),
      (∀ j (hj : j < k), ec (stages.get ⟨j, Nat.lt_trans hj hk⟩).1 = 0) →
      ec (stages.get ⟨k, hk⟩).1 ≠ 0 →
      (run_stages ec pkey stages st l e).result =
        .failedAt (stages.get ⟨k, hk⟩).2 (ec (stages.get ⟨k, hk⟩).1) ∧
      (run_stages ec pkey stages st l e).launched =
        l ++ (stages.take (k + 1)).map Prod.fst ∧
      (run_stages ec pkey stages st l e).effects =
        e ++ (stages.take (k + 1)).map Prod.fst ∧
      dhas (run_stages ec pkey stages st l e).state.active_processes
        (stages.get ⟨k, hk⟩).1 = true := by
  intro k
  induction k with
  | zero =>
    intro stages hk st l e _ hfail
    match stages, hk with
    | (agent_id, agent_name) :: rest, _ =>
      simp only [run_stages]
      rw [if_pos (show ec agent_id ≠ 0 from hfail)]
      refine ⟨rfl, by simp, by simp, ?_⟩
      show dhas (dset st.active_processes agent_id 0) agent_id = true
      exact dhas_dset_self _ _ _
  | succ k ih =>
    intro stages hk st l e hok hfail
    match stages, hk with
    | (agent_id, agent_name) :: rest, hk =>
      have h0 : ec agent_id = 0 := hok 0 (Nat.succ_pos k)
      have hk' : k < rest.length := Nat.lt_of_succ_lt_succ hk
      simp only [run_stages]
      rw [if_neg (fun hc => hc h0)]
      rcases ih rest hk' _ (l ++ [agent_id]) (e ++ [agent_id])
          (fun j hj => hok (j + 1) (Nat.succ_lt_succ hj)) hfail with ⟨h1, h2, h3, h4⟩
      refine ⟨h1, ?_, ?_, h4⟩
      · rw [h2]
        simp
      · rw [h3]
        simp

theorem run_stages_launched_ext (ec : String → Int) (pkey : String) :
    ∀ (stages : List (String × String)) (st : OrchState) (l e : List String),
      ∃ tail, (run_stages ec pkey stages st l e).launched = l ++ tail := by
  intro stages
  induction stages with
  | nil => intro st l e; exact ⟨[], by simp [run_stages]⟩
  | cons s rest ih =>
    intro st l e
    obtain ⟨agent_id, agent_name⟩ := s
    by_cases h : ec agent_id = 0
    · rcases ih ⟨ddel (dset st.active_processes agent_id 0) agent_id,
          dset st.active_pipelines pkey ((dfind st.active_pipelines pkey).getD [] ++ [agent_id])⟩
          (l ++ [agent_id]) (e ++ [agent_id]) with ⟨t, ht⟩
      refine ⟨[agent_id] ++ t, ?_⟩
      simp only [run_stages]
      rw [if_neg (fun hc => hc h), ht]
      simp
    · refine ⟨[agent_id], ?_⟩
      simp only [run_stages]
      rw [if_pos h]

theorem run_stages_launched_nonempty (ec : String → Int) (pkey : String)
    (agent_id agent_name : String) (rest : List (String × String))
    (st : OrchState) (l e : List String) :
    ∃ tail, (run_stages ec pkey ((agent_id, agent_name) :: rest) st l e).launched =
      l ++ agent_id :: tail := by
  by_cases h : ec agent_id = 0
  · rcases run_stages_launched_ext ec pkey rest
        ⟨ddel (dset st.active_processes agent_id 0) agent_id,
          dset st.active_pipelines pkey ((dfind st.active_pipelines pkey).getD [] ++ [agent_id])⟩
        (l ++ [agent_id]) (e ++ [agent_id]) with ⟨t, ht⟩
    refine ⟨t, ?_⟩
    simp only [run_stages]
    rw [if_neg (fun hc => hc h), ht]
    simp
  · refine ⟨[], ?_⟩
    simp only [run_stages]
    rw [if_pos h]

theorem run_stages_result_shape (ec : String → Int) (pkey : String) :
    ∀ (stages : List (String × String)) (st : OrchState) (l e : List String),
      (run_stages ec pkey stages st l e).result ≠ PipeResult.alreadyRunning ∧
      (run_stages ec pkey stages st l e).result ≠ PipeResult.envError := by
  intro stages
  induction stages with
  | nil =>
    intro st l e
    constructor
    · intro hc
      cases hc
    · intro hc
      cases hc
  | cons s rest ih =>
    intro st l e
    obtain ⟨agent_id, agent_name⟩ := s
    simp only [run_stages]
    by_cases h : ec agent_id = 0
    · rw [if_neg (fun hc => hc h)]
      exact ih _ _ _
    · rw [if_pos h]
      constructor
      · intro hc
        cases hc
      · intro hc
        cases hc

theorem run_stages_launched_ne_nil (ec : String → Int) (pkey : String) :
    ∀ (stages : List (String × String)) (st : OrchState),
      stages ≠ [] → (run_stages ec pkey stages st [] []).launched ≠ [] := by
  intro stages st hne
  match stages, hne with
  | s :: rest, _ =>
    obtain ⟨agent_id, agent_name⟩ := s
    rcases run_stages_launched_nonempty ec pkey agent_id agent_name rest st [] [] with ⟨t, ht⟩
    rw [ht]
    simp

/-- Distinct languages give distinct pipeline keys. -/
theorem pipeline_key_injective (l1 l2 : String)
    (h : "pipeline_" ++ l1 = "pipeline_" ++ l2) : l1 = l2 := by
  have hd : ("pipeline_" ++ l1).data = ("pipeline_" ++ l2).data := by rw [h]
  rw [String.data_append, String.data_append] at hd
  exact String.ext (List.append_cancel_left hd)

/-- Claim C5: when the stage at position k of the fixed pipeline exits
non-zero and every earlier stage exits zero, the run launches exactly
stages 0..k (so none of the stages after k is launched), the failure
report names stage k and its exit code, the effects journal still holds
exactly the effects of the stages that ran (nothing is rolled back), and
the pipeline entry is removed. -/
theorem C5_pipeline_fail_fast (exitCode : String → Int) (st : OrchState)
    (language : String) (k : Nat) (hk : k < PIPELINE.length)
    (hactive : dhas st.active_pipelines ("pipeline_" ++ language) = false)
    (hok : ∀ j (hj : j < k), exitCode (PIPELINE.get ⟨j, Nat.lt_trans hj hk⟩).1 = 0)
    (hfail : exitCode (PIPELINE.get ⟨k, hk⟩).1 ≠ 0) :
    (run_pipeline true exitCode st language).result =
      .failedAt (PIPELINE.get ⟨k, hk⟩).2 (exitCode (PIPELINE.get ⟨k, hk⟩).1) ∧
    (run_pipeline true exitCode st language).launched =
      (PIPELINE.take (k + 1)).map Prod.fst ∧
    (run_pipeline true exitCode st language).effects =
      (PIPELINE.take (k + 1)).map Prod.fst ∧
    dhas (run_pipeline true exitCode st language).state.active_pipelines
      ("pipeline_" ++ language) = false := by
  have hrp : run_pipeline true exitCode st language =
      run_stages exitCode ("pipeline_" ++ language) PIPELINE
        ⟨st.active_processes, dset st.active_pipelines ("pipeline_" ++ language) []⟩ [] [] := by
    unfold run_pipeline
    rw [if_neg (by simp), if_neg (by simp [hactive])]
  rw [hrp]
  rcases run_stages_fail exitCode ("pipeline_" ++ language) k PIPELINE hk
      ⟨st.active_processes, dset st.active_pipelines ("pipeline_" ++ language) []⟩
      [] [] hok hfail with ⟨h1, h2, h3, h4⟩
  refine ⟨h1, ?_, ?_, ?_⟩
  · rw [h2]
    simp
  · rw [h3]
    simp
  · exact run_stages_pipelines_removed exitCode ("pipeline_" ++ language) PIPELINE _ [] []

theorem C5_pipeline_fail_fast_witness :
    (run_pipeline true (fun a => if a == "sentiment_tuner" then 1 else 0)
        ⟨[], []⟩ "en").result =
      .failedAt (PIPELINE.get ⟨2, by decide⟩).2
        ((fun a => if a == "sentiment_tuner" then (1 : Int) else 0)
          (PIPELINE.get ⟨2, by decide⟩).1) ∧
    (run_pipeline true (fun a => if a == "sentiment_tuner" then 1 else 0)
        ⟨[], []⟩ "en").launched = (PIPELINE.take 3).map Prod.fst ∧
    (run_pipeline true (fun a => if a == "sentiment_tuner" then 1 else 0)
        ⟨[], []⟩ "en").effects = (PIPELINE.take 3).map Prod.fst ∧
    dhas (run_pipeline true (fun a => if a == "sentiment_tuner" then 1 else 0)
        ⟨[], []⟩ "en").state.active_pipelines ("pipeline_" ++ "en") = false :=
  C5_pipeline_fail_fast (fun a => if a == "sentiment_tuner" then 1 else 0)
    ⟨[], []⟩ "en" 2 (by decide) rfl (by decide) (by decide)

/-- Claim C6: a run_pipeline call for a language whose pipeline key is
active is rejected with the explicit already-running response, launches no
stage and leaves the whole state untouched; a call for any language whose
own key is not active is never answered with already-running and launches
at least one stage; and distinct languages have distinct pipeline keys, so
an active run for one language never blocks another. -/
theorem C6_pipeline_mutex (exitCode : String → Int) (st : OrchState) (language : String)
    (hactive : dhas st.active_pipelines ("pipeline_" ++ language) = true) :
    run_pipeline true exitCode st language =
      { state := st, result := .alreadyRunning, launched := [], effects := [] } ∧
    (∀ language2, dhas st.active_pipelines ("pipeline_" ++ language2) = false →
      (run_pipeline true exitCode st language2).result ≠ PipeResult.alreadyRunning ∧
      (run_pipeline true exitCode st language2).launched ≠ []) ∧
    (∀ language2, language2 ≠ language →
      ("pipeline_" ++ language2) ≠ ("pipeline_" ++ language)) := by
  refine ⟨?_, ?_, ?_⟩
  · unfold run_pipeline
    rw [if_neg (by simp), if_pos hactive]
  · intro l2 h2
    have hrp : run_pipeline true exitCode st l2 =
        run_stages exitCode ("pipeline_" ++ l2) PIPELINE
          ⟨st.active_processes, dset st.active_pipelines ("pipeline_" ++ l2) []⟩ [] [] := by
      unfold run_pipeline
      rw [if_neg (by simp), if_neg (by simp [h2])]
    rw [hrp]
    exact ⟨(run_stages_result_shape exitCode ("pipeline_" ++ l2) PIPELINE _ [] []).1,
      run_stages_launched_ne_nil exitCode ("pipeline_" ++ l2) PIPELINE _ (by simp [PIPELINE])⟩
  · intro l2 hne hc
    exact hne (pipeline_key_injective l2 language hc)

theorem C6_pipeline_mutex_witness :
    run_pipeline true (fun _ => 0) ⟨[], [("pipeline_en", [])]⟩ "en" =
      { state := ⟨[], [("pipeline_en", [])]⟩, result := .alreadyRunning,
        launched := [], effects := [] } ∧
    (∀ language2, dhas ([("pipeline_en", [])] : List (String × List String))
        ("pipeline_" ++ language2) = false →
      (run_pipeline true (fun _ => 0) ⟨[], [("pipeline_en", [])]⟩ language2).result ≠
        PipeResult.alreadyRunning ∧
      (run_pipeline true (fun _ => 0) ⟨[], [("pipeline_en", [])]⟩ language2).launched ≠ []) ∧
    (∀ language2, language2 ≠ "en" →
      ("pipeline_" ++ language2) ≠ ("pipeline_" ++ "en")) :=
  C6_pipeline_mutex (fun _ => 0) ⟨[], [("pipeline_en", [])]⟩ "en" (by decide)

/-- Claim C2, as frozen, fails on the code: when a stage exits non-zero,
run_pipeline removes the pipeline entry in its finally clause but never
deletes the failed stage handle — the per-stage deletion sits on the
success path only — so a stage handle remains in the active-process map
after the call. -/
theorem C2_counterexample :
    (run_pipeline true (fun _ => 1) ⟨[], []⟩ "en").result =
      .failedAt "Agent A: Miner & Sanitizer" 1 ∧
    dhas (run_pipeline true (fun _ => 1) ⟨[], []⟩ "en").state.active_processes
      "miner_sanitizer" = true ∧
    (run_pipeline true (fun _ => 1) ⟨[], []⟩ "en").state.active_pipelines = [] := by
  decide

/-- Claim C2 (amended): the Orchestrator always removes the pipeline entry
of a run_pipeline call that ran, success or failure alike, and a
successful run leaves no pipeline stage handle in the active-process map;
kill of a stage removes its handle and kill of a pipeline removes the
pipeline entry and every member stage handle; but a run_pipeline that
fails at stage k, while removing the pipeline entry, leaves stage k's
handle in the active-process map. -/
theorem C2_bookkeeping_amended (exitCode : String → Int) (st : OrchState)
    (language agent : String) (k : Nat) :
    (dhas st.active_pipelines ("pipeline_" ++ language) = false →
      dhas (run_pipeline true exitCode st language).state.active_pipelines
        ("pipeline_" ++ language) = false) ∧
    ((∀ s ∈ PIPELINE, exitCode s.1 = 0) →
      dhas st.active_pipelines ("pipeline_" ++ language) = false →
      (run_pipeline true exitCode st language).result = .completed ∧
      ∀ a ∈ PIPELINE.map Prod.fst,
        dhas (run_pipeline true exitCode st language).state.active_processes a = false) ∧
    (∀ hk : k < PIPELINE.length,
      dhas st.active_pipelines ("pipeline_" ++ language) = false →
      (∀ j (hj : j < k), exitCode (PIPELINE.get ⟨j, Nat.lt_trans hj hk⟩).1 = 0) →
      exitCode (PIPELINE.get ⟨k, hk⟩).1 ≠ 0 →
      dhas (run_pipeline true exitCode st language).state.active_processes
        (PIPELINE.get ⟨k, hk⟩).1 = true) ∧
    dhas (kill_process st agent).active_processes agent = false ∧
    dhas (kill_pipeline st language).active_pipelines ("pipeline_" ++ language) = false ∧
    (∀ agents, dfind st.active_pipelines ("pipeline_" ++ language) = some agents →
      ∀ a ∈ agents, dhas (kill_pipeline st language).active_processes a = false) := by
  have hrp : dhas st.active_pipelines ("pipeline_" ++ language) = false →
      run_pipeline true exitCode st language =
      run_stages exitCode ("pipeline_" ++ language) PIPELINE
        ⟨st.active_processes, dset st.active_pipelines ("pipeline_" ++ language) []⟩ [] [] := by
    intro hactive
    unfold run_pipeline
    rw [if_neg (by simp), if_neg (by simp [hactive])]
  refine ⟨?_, ?_, ?_, (kill_process_state st agent).1,
    (kill_pipeline_clean st language).1, (kill_pipeline_clean st language).2⟩
  · intro hactive
    rw [hrp hactive]
    exact run_stages_pipelines_removed exitCode ("pipeline_" ++ language) PIPELINE _ [] []
  · intro hok hactive
    rw [hrp hactive]
    exact ⟨(run_stages_success exitCode ("pipeline_" ++ language) PIPELINE _ [] [] hok).1,
      run_stages_success_clean exitCode ("pipeline_" ++ language) PIPELINE _ [] [] hok⟩
  · intro hk hactive hok hfail
    rw [hrp hactive]
    exact (run_stages_fail exitCode ("pipeline_" ++ language) k PIPELINE hk _ [] []
      hok hfail).2.2.2

end Vaani
